import Mathlib

/-!
Shallow embedding of the Orbion experience client (React/TypeScript) for
verification of its specification.

The embedded parts:
* the checkpoint state machine (`handleCheckpointComplete` in the App
  component) and its initial list `INITIAL_CHECKPOINTS`;
* the transcript aggregator (`handleTranscriptUpdate` in the App component);
* the playback scheduler and the playback active/idle signalling, the
  tool-call answering loop, the volume meter and `disconnect` from
  `services/geminiService.ts`;
* the App-level checkpoint completion handler including its orb-state side
  effects.

Machine floats are modelled by `ℚ` (audio clock times, durations, samples);
the square root of the volume meter is modelled relationally over `ℝ`.
-/

namespace Orbion

/-! ### Checkpoint data model (`types.ts`) -/

/-- Values of `Checkpoint.status`: pending, current or completed. -/
inductive CheckpointStatus where
  | pending
  | current
  | completed
deriving DecidableEq, Repr

/-- The `Checkpoint` interface from `types.ts`. -/
structure Checkpoint where
  id : String
  title : String
  description : String
  hint : String
  status : CheckpointStatus
deriving DecidableEq, Repr

/-- Boolean test for the status value current. -/
def statusIsCurrent (s : CheckpointStatus) : Bool :=
  match s with
  | .current => true
  | _ => false

/-- Boolean test for the status value completed. -/
def statusIsCompleted (s : CheckpointStatus) : Bool :=
  match s with
  | .completed => true
  | _ => false

/-- Boolean test for the status value pending. -/
def statusIsPending (s : CheckpointStatus) : Bool :=
  match s with
  | .pending => true
  | _ => false

/-- The `INITIAL_CHECKPOINTS` constant of the App component: checkpoint 0 is
`current`, all others `pending`. -/
def INITIAL_CHECKPOINTS : List Checkpoint :=
  [ { id := "greet", title := "The Encounter",
      description := "Greet the waiter at the café", hint := "Bonjour !",
      status := .current },
    { id := "order_drink", title := "The Order",
      description := "Order a coffee (or another drink)",
      hint := "Je voudrais un café, s\x27il vous plaît.", status := .pending },
    { id := "ask_bill", title := "The Bill",
      description := "Ask for the check",
      hint := "L\x27addition, s\x27il vous plaît.", status := .pending },
    { id := "farewell", title := "Farewell",
      description := "Say goodbye politely", hint := "Merci, au revoir !",
      status := .pending } ]

/-- Array assignment `xs[i] = {...xs[i], status: st}`: replaces the status of
the element at index `i`, identity when `i` is out of range. -/
def setStatusAt (l : List Checkpoint) (i : Nat) (st : CheckpointStatus) :
    List Checkpoint :=
  match l, i with
  | [], _ => []
  | c :: cs, 0 => { c with status := st } :: cs
  | c :: cs, i + 1 => c :: setStatusAt cs i st

/-- The checkpoint-array update of `handleCheckpointComplete` in the App
component: find the checkpoint by id (`findIndex`, no-op when `-1`), mark it
`completed`, and mark the one after it (if any) `current`. -/
def handleCheckpointComplete (id : String) (prev : List Checkpoint) :
    List Checkpoint :=
  match prev.findIdx? (fun c => c.id == id) with
  | none => prev
  | some idx =>
    let marked := setStatusAt prev idx .completed
    if idx + 1 < prev.length then setStatusAt marked (idx + 1) .current
    else marked

/-- A sequence of `complete(id)` calls, applied in order. -/
def completeSeq (ids : List String) (l : List Checkpoint) : List Checkpoint :=
  ids.foldl (fun st id => handleCheckpointComplete id st) l

/-- The list of statuses of a checkpoint array. -/
def statusList (l : List Checkpoint) : List CheckpointStatus :=
  l.map (fun c => c.status)

/-- The list of ids of a checkpoint array. -/
def idList (l : List Checkpoint) : List String :=
  l.map (fun c => c.id)

/-- Number of checkpoints with status `current`. -/
def countCurrent (l : List Checkpoint) : Nat :=
  (statusList l).countP statusIsCurrent

/-- The spec's checkpoint invariant: at most one checkpoint is `current`,
every checkpoint before a `current` one is `completed`, and every checkpoint
after it is `pending`. -/
def checkpointInvariant (l : List Checkpoint) : Prop :=
  countCurrent l ≤ 1 ∧
  ∀ k < l.length, (statusList l)[k]? = some .current →
    (∀ s ∈ (statusList l).take k, s = .completed) ∧
    (∀ s ∈ (statusList l).drop (k + 1), s = .pending)

instance (l : List Checkpoint) : Decidable (checkpointInvariant l) := by
  unfold checkpointInvariant
  infer_instance

/-- The reachable-state invariant: the array is a completed prefix followed by
one `current` checkpoint and a pending suffix, or everything is completed. -/
def GoodState (l : List Checkpoint) : Prop :=
  (∃ A c B, l = A ++ c :: B ∧ (∀ a ∈ A, a.status = .completed) ∧
    c.status = .current ∧ (∀ b ∈ B, b.status = .pending)) ∨
  ∀ c ∈ l, c.status = .completed

/-- A `complete(id)` call is orderly when the id is unknown or is the id of
the checkpoint whose status is `current` at the time of the call. -/
def validCallB (l : List Checkpoint) (id : String) : Bool :=
  !((idList l).contains id) ||
    l.any (fun c => statusIsCurrent c.status && c.id == id)

/-- A sequence of `complete(id)` calls is orderly when each call is orderly
in the state produced by the calls before it. -/
def validCallsB : List String → List Checkpoint → Bool
  | [], _ => true
  | id :: rest, l => validCallB l id && validCallsB rest (handleCheckpointComplete id l)

/-! ### Transcript aggregator (`handleTranscriptUpdate` in the App) -/

/-- Speaker roles of a chat message. -/
inductive Role where
  | user
  | assistant
deriving DecidableEq, Repr

/-- The `ChatMessage` interface from `types.ts`; `isFinal` is an optional
field (`isFinal?: boolean`). -/
structure ChatMessage where
  id : String
  role : Role
  text : String
  isFinal : Option Bool
deriving DecidableEq, Repr

/-- JavaScript truthiness of the optional `isFinal` field: `undefined` is
falsy. -/
def isFinalTruthy (f : Option Bool) : Bool :=
  match f with
  | some b => b
  | none => false

/-- The `handleTranscriptUpdate` callback of the App component: if the
last message exists, has the same role and is not final, append the text to it
and overwrite its `isFinal`; otherwise push a new message. `newId` stands for
the `Date.now().toString()` id of a freshly created message. -/
def handleTranscriptUpdate (newId : String) (role : Role) (text : String)
    (isFinal : Bool) (prev : List ChatMessage) : List ChatMessage :=
  match prev.getLast? with
  | some lastMsg =>
    if lastMsg.role == role && !(isFinalTruthy lastMsg.isFinal) then
      prev.dropLast ++
        [{ lastMsg with text := lastMsg.text ++ text, isFinal := some isFinal }]
    else
      prev ++ [{ id := newId, role := role, text := text, isFinal := some isFinal }]
  | none =>
      prev ++ [{ id := newId, role := role, text := text, isFinal := some isFinal }]

/-- One transcript event `(id-for-a-new-message, role, fragment, isFinal)`. -/
structure TranscriptEvent where
  newId : String
  role : Role
  text : String
  isFinal : Bool

/-- Feed a stream of transcript events through `handleTranscriptUpdate`,
starting from an empty message list. -/
def processTranscript (events : List TranscriptEvent) : List ChatMessage :=
  events.foldl
    (fun msgs e => handleTranscriptUpdate e.newId e.role e.text e.isFinal msgs) []

/-! ### Playback scheduler (`handleMessage`, audio branch) -/

/-- The mutable scheduling state of `GeminiLiveService`: the field
`nextStartTime`. -/
structure SchedulerState where
  nextStartTime : ℚ
deriving DecidableEq, Repr

/-- One buffer-scheduling step of `handleMessage`:
`nextStartTime = max(nextStartTime, outputAudioContext.currentTime)`,
`source.start(nextStartTime)`, `nextStartTime += audioBuffer.duration`.
Returns the start time assigned to the buffer and the new state. -/
def scheduleBuffer (clockNow duration : ℚ) (st : SchedulerState) :
    ℚ × SchedulerState :=
  let startAt := max st.nextStartTime clockNow
  (startAt, { nextStartTime := startAt + duration })

/-- Schedule a whole sequence of buffers; `arrivals` lists for each buffer the
output-clock reading at its arrival and its duration. Returns the assigned
start times in order. -/
def scheduleAll (arrivals : List (ℚ × ℚ)) (st : SchedulerState) : List ℚ :=
  match arrivals with
  | [] => []
  | (t, d) :: rest =>
    let out := scheduleBuffer t d st
    out.1 :: scheduleAll rest out.2

/-! ### Playback active/idle signalling (`handleMessage` + `ended` listener) -/

/-- Events seen by the active-source set: a decoded buffer arrives and is
scheduled, or a scheduled source fires its `ended` listener. -/
inductive PlaybackEvent where
  | arrive
  | ended
deriving DecidableEq, Repr

/-- One step of the signalling logic over the size of `this.sources`.
On arrival the code calls `onStateChange(true)` unconditionally and adds the
source; on `ended` it deletes the source and calls `onStateChange(false)`
exactly when the set became empty. Returns the new count and the emitted
`onStateChange` arguments. -/
def playbackStep (n : Nat) (e : PlaybackEvent) : Nat × List Bool :=
  match e with
  | .arrive => (n + 1, [true])
  | .ended =>
    let m := n - 1
    (m, if m = 0 then [false] else [])

/-- All `onStateChange` signals emitted while processing a trace of playback
events, starting from `n` active sources. -/
def playbackEmissions (n : Nat) (trace : List PlaybackEvent) : List Bool :=
  match trace with
  | [] => []
  | e :: rest =>
    let out := playbackStep n e
    out.2 ++ playbackEmissions out.1 rest

/-- A trace is valid when every `ended` event is fired by a source that is
actually in the active set (the count is positive at that point). -/
def validTrace (n : Nat) (trace : List PlaybackEvent) : Bool :=
  match trace with
  | [] => true
  | .arrive :: rest => validTrace (n + 1) rest
  | .ended :: rest => decide (0 < n) && validTrace (n - 1) rest

/-- Modelled from the spec: the signals the spec prescribes — `true` exactly
when the active count transitions from zero to non-zero, `false` exactly when
it transitions from non-zero to zero, nothing otherwise. -/
def specSignals (n : Nat) (trace : List PlaybackEvent) : List Bool :=
  match trace with
  | [] => []
  | e :: rest =>
    let m := match e with | .arrive => n + 1 | .ended => n - 1
    (if n = 0 ∧ 0 < m then [true]
     else if 0 < n ∧ m = 0 then [false]
     else []) ++ specSignals m rest

/-- The amended signal discipline: `true` on every buffer arrival, `false`
exactly on a non-empty-to-empty transition. -/
def amendedSignals (n : Nat) (trace : List PlaybackEvent) : List Bool :=
  match trace with
  | [] => []
  | .arrive :: rest => true :: amendedSignals (n + 1) rest
  | .ended :: rest =>
    (if 0 < n ∧ n - 1 = 0 then [false] else []) ++ amendedSignals (n - 1) rest

/-! ### Tool-call answering (`handleMessage`, tool branch) -/

/-- An inbound function call `{id, name, args: {checkpointId}}`. -/
structure FunctionCall where
  id : String
  name : String
  checkpointId : String
deriving DecidableEq, Repr

/-- An outbound tool response `{id, name, response: {result}}`. -/
structure ToolResponse where
  id : String
  name : String
  result : String
deriving DecidableEq, Repr

/-- The tool-call loop of `handleMessage`: for each function call whose name
is `markCheckpointComplete`, invoke the checkpoint-complete callback with
`args.checkpointId` and send one tool response; other calls are skipped.
Returns the checkpoint-complete callback arguments and the responses sent, in
order. -/
def handleToolCalls (fcs : List FunctionCall) : List String × List ToolResponse :=
  match fcs with
  | [] => ([], [])
  | fc :: rest =>
    let out := handleToolCalls rest
    if fc.name == "markCheckpointComplete" then
      (fc.checkpointId :: out.1,
       { id := fc.id, name := fc.name, result := "Checkpoint marked." } :: out.2)
    else out

/-! ### Resource release (`disconnect`) -/

/-- Which release operations fail when attempted (a thrown exception from the
corresponding browser API call). -/
structure DisconnectEnv where
  processorDisconnectFails : Bool
  streamStopFails : Bool
  inputCloseFails : Bool
  outputCloseFails : Bool
deriving DecidableEq, Repr

/-- The session's resources as `disconnect` sees them: which handles are
non-null, and which have already been released. -/
structure SessionResources where
  processorPresent : Bool
  processorReleased : Bool
  streamPresent : Bool
  streamStopped : Bool
  inputPresent : Bool
  inputClosed : Bool
  outputPresent : Bool
  outputClosed : Bool
deriving DecidableEq, Repr

/-- The body of `disconnect()`: four guarded release steps in sequence, with
no exception handling — a throw propagates out of the method and the
remaining statements do not run. Returns the resulting resource state and
whether an exception escaped. -/
def disconnect (env : DisconnectEnv) (s : SessionResources) :
    SessionResources × Bool :=
  if s.processorPresent ∧ env.processorDisconnectFails then (s, true)
  else
    let s1 := if s.processorPresent then { s with processorReleased := true } else s
    if s1.streamPresent ∧ env.streamStopFails then (s1, true)
    else
      let s2 := if s1.streamPresent then { s1 with streamStopped := true } else s1
      if s2.inputPresent ∧ env.inputCloseFails then (s2, true)
      else
        let s3 := if s2.inputPresent then { s2 with inputClosed := true } else s2
        if s3.outputPresent ∧ env.outputCloseFails then (s3, true)
        else
          (if s3.outputPresent then { s3 with outputClosed := true } else s3,
           false)

/-! ### Volume meter (`handleOpen`'s `onaudioprocess` handler) -/

/-- Running sum of squared samples over the frame. -/
def sumSquares (frame : List ℚ) : ℚ :=
  frame.foldl (fun sum x => sum + x * x) 0

/-- The handler computes `rms = Math.sqrt(sum / inputData.length)` and emits
`rms * 5`. Since real square roots are not exactly computable this is stated
relationally: `EmitsVolume frame v` holds of the value `v` the handler passes
to `onVolumeUpdate` for the frame. -/
def EmitsVolume (frame : List ℚ) (v : ℝ) : Prop :=
  v = Real.sqrt ((sumSquares frame : ℝ) / (frame.length : ℝ)) * 5

/-- Modelled from the spec: `r` is the root-mean-square of the frame — the
non-negative number whose square is the mean of the squares of the samples. -/
def IsRms (frame : List ℚ) (r : ℝ) : Prop :=
  0 ≤ r ∧ r ^ 2 = ((sumSquares frame / (frame.length : ℚ) : ℚ) : ℝ)

/-! ### App-level checkpoint completion (orb side effects) -/

/-- The `OrbState` enumeration from `types.ts`. -/
inductive OrbState where
  | idle
  | listening
  | speaking
  | thinking
  | celebrating
deriving DecidableEq, Repr

/-- The slice of App state touched by `handleCheckpointComplete`: the orb
state, the pending `setTimeout` reverting the orb state (delay in
milliseconds and the state it will set), and the checkpoint array. -/
structure AppState where
  orbState : OrbState
  pendingOrbTimer : Option (Nat × OrbState)
  checkpoints : List Checkpoint
deriving DecidableEq, Repr

/-- The full `handleCheckpointComplete` callback of the App component:
`setOrbState(CELEBRATING)` and `setTimeout(() => setOrbState(IDLE), 2500)`
happen unconditionally, before the id is validated; then the checkpoint array
update runs. -/
def appHandleCheckpointComplete (id : String) (s : AppState) : AppState :=
  { orbState := .celebrating,
    pendingOrbTimer := some (2500, .idle),
    checkpoints := handleCheckpointComplete id s.checkpoints }

/-! ### Helper lemmas: checkpoint array operations -/

/-- Looking up an id that is not in the array finds nothing. -/
theorem findIdx?_eq_none_of_not_mem {id : String} {l : List Checkpoint}
    (h : id ∉ idList l) : l.findIdx? (fun c => c.id == id) = none := by
  rw [List.findIdx?_eq_none_iff]
  intro c hc
  simp only [beq_eq_false_iff_ne, ne_eq]
  intro hcid
  exact h (hcid ▸ List.mem_map_of_mem (fun c => c.id) hc)

/-- Completing an id not in the array is the identity. -/
theorem handleCheckpointComplete_not_mem {id : String} {l : List Checkpoint}
    (h : id ∉ idList l) : handleCheckpointComplete id l = l := by
  unfold handleCheckpointComplete
  rw [findIdx?_eq_none_of_not_mem h]

/-- Finding the id of `c` in `A ++ c :: B` when no element of `A` carries it. -/
theorem findIdx?_append_current (A : List Checkpoint) (c : Checkpoint)
    (B : List Checkpoint) (h : c.id ∉ idList A) :
    (A ++ c :: B).findIdx? (fun x => x.id == c.id) = some A.length := by
  induction A with
  | nil => simp
  | cons a A ih =>
    have ha : a.id ≠ c.id := by
      intro hid
      exact h (by simp [idList, hid])
    have hA : c.id ∉ idList A := by
      intro hmem
      exact h (by simp [idList] at hmem ⊢; exact Or.inr hmem)
    simp only [List.cons_append, List.findIdx?_cons, beq_iff_eq, ha,
      if_false]
    rw [show (0 + 1 : Nat) = 0 + 1 from rfl, List.findIdx?_succ, ih hA]
    rfl

/-- Status assignment at the junction index of an append. -/
theorem setStatusAt_append (A : List Checkpoint) (c : Checkpoint)
    (B : List Checkpoint) (st : CheckpointStatus) :
    setStatusAt (A ++ c :: B) A.length st = A ++ { c with status := st } :: B := by
  induction A with
  | nil => rfl
  | cons a A ih => simpa [setStatusAt] using ih

/-- Status assignment does not change the ids. -/
theorem idList_setStatusAt (l : List Checkpoint) (i : Nat)
    (st : CheckpointStatus) : idList (setStatusAt l i st) = idList l := by
  induction l generalizing i with
  | nil => rfl
  | cons a l ih =>
    cases i with
    | zero => rfl
    | succ i => simpa [setStatusAt, idList] using ih i

/-- Completing the `current` checkpoint when it is the last one: everything
becomes `completed`. -/
theorem complete_current_last (A : List Checkpoint) (c : Checkpoint)
    (h : c.id ∉ idList A) :
    handleCheckpointComplete c.id (A ++ [c]) =
      A ++ [{ c with status := .completed }] := by
  unfold handleCheckpointComplete
  rw [findIdx?_append_current A c [] h]
  have hlen : ¬ A.length + 1 < (A ++ [c]).length := by
    simp
  simp only [hlen, if_false, setStatusAt_append]

/-- Completing the `current` checkpoint when a later one exists: it becomes
`completed` and its successor becomes `current`. -/
theorem complete_current_mid (A : List Checkpoint) (c b : Checkpoint)
    (B : List Checkpoint) (h : c.id ∉ idList A) :
    handleCheckpointComplete c.id (A ++ c :: b :: B) =
      A ++ { c with status := .completed } ::
        { b with status := .current } :: B := by
  unfold handleCheckpointComplete
  rw [findIdx?_append_current A c (b :: B) h]
  have hlen : A.length + 1 < (A ++ c :: b :: B).length := by
    simp only [List.length_append, List.length_cons]
    omega
  simp only [hlen, if_true, setStatusAt_append]
  have : A ++ { c with status := CheckpointStatus.completed } :: b :: B =
      (A ++ [{ c with status := CheckpointStatus.completed }]) ++ b :: B := by
    simp
  rw [this]
  have hA1 : (A ++ [{ c with status := CheckpointStatus.completed }]).length =
      A.length + 1 := by simp
  rw [← hA1, setStatusAt_append]
  simp

/-- Completing an id never changes the ids of the array. -/
theorem idList_handleCheckpointComplete (id : String) (l : List Checkpoint) :
    idList (handleCheckpointComplete id l) = idList l := by
  unfold handleCheckpointComplete
  cases l.findIdx? (fun c => c.id == id) with
  | none => rfl
  | some idx =>
    by_cases h : idx + 1 < l.length <;>
      simp [h, idList_setStatusAt]

/-- The test `statusIsCurrent` detects exactly the status `current`. -/
theorem statusIsCurrent_eq_true {s : CheckpointStatus} :
    statusIsCurrent s = true ↔ s = .current := by
  cases s <;> simp [statusIsCurrent]

/-- In a well-formed segment `A ++ c :: B` with duplicate-free ids, the id of
the middle element does not occur in the prefix. -/
theorem id_notMem_of_nodup_middle {A : List Checkpoint} {c : Checkpoint}
    {B : List Checkpoint} (hnd : (idList (A ++ c :: B)).Nodup) :
    c.id ∉ idList A := by
  have h : (idList A ++ c.id :: idList B).Nodup := by simpa [idList] using hnd
  rw [List.nodup_middle] at h
  intro hmem
  exact (List.nodup_cons.1 h).1 (List.mem_append_left _ hmem)

/-- A completed prefix, a single `current` checkpoint and a pending suffix
contain exactly one `current` checkpoint. -/
theorem countCurrent_shape (A : List Checkpoint) (c : Checkpoint)
    (B : List Checkpoint) (hA : ∀ a ∈ A, a.status = .completed)
    (hc : c.status = .current) (hB : ∀ b ∈ B, b.status = .pending) :
    countCurrent (A ++ c :: B) = 1 := by
  unfold countCurrent statusList
  rw [List.map_append, List.map_cons, List.countP_append, List.countP_cons]
  have h1 : (A.map (fun x => x.status)).countP statusIsCurrent = 0 := by
    rw [List.countP_eq_zero]
    intro s hs
    obtain ⟨a, ha, rfl⟩ := List.mem_map.1 hs
    simp [hA a ha, statusIsCurrent]
  have h2 : (B.map (fun x => x.status)).countP statusIsCurrent = 0 := by
    rw [List.countP_eq_zero]
    intro s hs
    obtain ⟨b, hb, rfl⟩ := List.mem_map.1 hs
    simp [hB b hb, statusIsCurrent]
  simp [h1, h2, hc, statusIsCurrent]

/-- An all-`completed` array satisfies the checkpoint invariant. -/
theorem checkpointInvariant_of_allCompleted (l : List Checkpoint)
    (h : ∀ c ∈ l, c.status = .completed) : checkpointInvariant l := by
  constructor
  · unfold countCurrent statusList
    have : (l.map (fun x => x.status)).countP statusIsCurrent = 0 := by
      rw [List.countP_eq_zero]
      intro s hs
      obtain ⟨c, hc, rfl⟩ := List.mem_map.1 hs
      simp [h c hc, statusIsCurrent]
    omega
  · intro k _ hcur
    exfalso
    have hmem := List.getElem?_mem hcur
    obtain ⟨c, hc, hsc⟩ := List.mem_map.1 hmem
    rw [h c hc] at hsc
    exact absurd hsc (by decide)

/-- A completed prefix, a single `current` checkpoint and a pending suffix
satisfy the checkpoint invariant. -/
theorem checkpointInvariant_of_shape (A : List Checkpoint) (c : Checkpoint)
    (B : List Checkpoint) (hA : ∀ a ∈ A, a.status = .completed)
    (hc : c.status = .current) (hB : ∀ b ∈ B, b.status = .pending) :
    checkpointInvariant (A ++ c :: B) := by
  have hsl : statusList (A ++ c :: B) =
      statusList A ++ .current :: statusList B := by
    simp [statusList, hc]
  have hlenA : (statusList A).length = A.length := by simp [statusList]
  constructor
  · rw [countCurrent_shape A c B hA hc hB]
  · intro k hk hcur
    rcases lt_trichotomy k A.length with hlt | heq | hgt
    · exfalso
      rw [hsl, List.getElem?_append_left (by omega)] at hcur
      obtain ⟨a, ha, hsa⟩ := List.mem_map.1 (List.getElem?_mem hcur)
      rw [hA a ha] at hsa
      exact absurd hsa (by decide)
    · subst heq
      constructor
      · intro s hs
        rw [hsl, List.take_left' hlenA] at hs
        obtain ⟨a, ha, rfl⟩ := List.mem_map.1 hs
        exact hA a ha
      · intro s hs
        have hsl2 : statusList (A ++ c :: B) =
            (statusList A ++ [.current]) ++ statusList B := by
          rw [hsl]; simp
        have hlen2 : (statusList A ++ [CheckpointStatus.current]).length =
            (statusList A).length + 1 := by simp
        rw [hsl2, List.drop_left' (by omega)] at hs
        obtain ⟨b, hb, rfl⟩ := List.mem_map.1 hs
        exact hB b hb
    · exfalso
      rw [hsl, List.getElem?_append_right (by omega)] at hcur
      obtain ⟨m, hm⟩ : ∃ m, k - (statusList A).length = m + 1 := ⟨k - (statusList A).length - 1, by omega⟩
      rw [hm, List.getElem?_cons_succ] at hcur
      obtain ⟨b, hb, hsb⟩ := List.mem_map.1 (List.getElem?_mem hcur)
      rw [hB b hb] at hsb
      exact absurd hsb (by decide)

/-- One orderly `complete(id)` call preserves the reachable-state invariant. -/
theorem goodState_preserved (l : List Checkpoint) (id : String)
    (hnd : (idList l).Nodup) (hg : GoodState l) (hv : validCallB l id = true) :
    GoodState (handleCheckpointComplete id l) := by
  unfold validCallB at hv
  rw [Bool.or_eq_true] at hv
  cases hv with
  | inl hnm =>
    have hnotmem : id ∉ idList l := by simpa using hnm
    rw [handleCheckpointComplete_not_mem hnotmem]
    exact hg
  | inr hany =>
    rw [List.any_eq_true] at hany
    obtain ⟨c, hcmem, hcb⟩ := hany
    rw [Bool.and_eq_true] at hcb
    have hccur : c.status = .current := statusIsCurrent_eq_true.1 hcb.1
    have hcid : c.id = id := by simpa using hcb.2
    cases hg with
    | inr hall =>
      rw [hall c hcmem] at hccur
      exact absurd hccur (by decide)
    | inl hsh =>
      obtain ⟨A, c0, B, rfl, hA, hc0, hB⟩ := hsh
      have hceq : c = c0 := by
        rcases List.mem_append.1 hcmem with hcA | hcCB
        · rw [hA c hcA] at hccur; exact absurd hccur (by decide)
        · rcases List.mem_cons.1 hcCB with h | hcB
          · exact h
          · rw [hB c hcB] at hccur; exact absurd hccur (by decide)
      subst hceq
      subst hcid
      have hnotA : c.id ∉ idList A := id_notMem_of_nodup_middle hnd
      cases B with
      | nil =>
        rw [complete_current_last A c hnotA]
        right
        intro x hx
        rcases List.mem_append.1 hx with hxA | hxc
        · exact hA x hxA
        · rw [List.mem_singleton.1 hxc]
      | cons b B2 =>
        rw [complete_current_mid A c b B2 hnotA]
        left
        refine ⟨A ++ [{ c with status := .completed }],
          { b with status := .current }, B2, by simp, ?_, rfl, ?_⟩
        · intro x hx
          rcases List.mem_append.1 hx with hxA | hxc
          · exact hA x hxA
          · rw [List.mem_singleton.1 hxc]
        · intro x hx
          exact hB x (List.mem_cons_of_mem b hx)

/-- Peeling one call off a completion sequence. -/
theorem completeSeq_cons (id : String) (ids : List String)
    (l : List Checkpoint) :
    completeSeq (id :: ids) l = completeSeq ids (handleCheckpointComplete id l) :=
  rfl

/-- A sequence of orderly calls preserves the reachable-state invariant. -/
theorem goodState_completeSeq (ids : List String) : ∀ l : List Checkpoint,
    (idList l).Nodup → GoodState l → validCallsB ids l = true →
    GoodState (completeSeq ids l) := by
  induction ids with
  | nil => intro l _ hg _; exact hg
  | cons id rest ih =>
    intro l hnd hg hv
    rw [validCallsB, Bool.and_eq_true] at hv
    rw [completeSeq_cons]
    have hnd2 : (idList (handleCheckpointComplete id l)).Nodup := by
      rw [idList_handleCheckpointComplete]; exact hnd
    exact ih _ hnd2 (goodState_preserved l id hnd hg hv.1) hv.2

/-- The reachable-state invariant implies the spec's checkpoint invariant. -/
theorem checkpointInvariant_of_goodState {l : List Checkpoint}
    (hg : GoodState l) : checkpointInvariant l := by
  cases hg with
  | inl h =>
    obtain ⟨A, c, B, rfl, hA, hc, hB⟩ := h
    exact checkpointInvariant_of_shape A c B hA hc hB
  | inr h => exact checkpointInvariant_of_allCompleted l h

/-- The initial checkpoint list is a reachable state. -/
theorem goodState_initial : GoodState INITIAL_CHECKPOINTS := by
  left
  exact ⟨[], _, _, rfl, by simp, rfl, by decide⟩

/-! ### C1: the checkpoint invariant under sequences of completions -/

/-- C1 (amended): starting from the initial checkpoint list, after every
sequence of `complete(id)` calls in which each call's id is either absent from
the array or the id of the checkpoint that is `current` at the time of the
call, the array satisfies the invariant: at most one checkpoint is `current`,
every checkpoint before it is `completed`, every checkpoint after it is
`pending`. -/
theorem checkpoint_invariant_preserved (ids : List String)
    (hv : validCallsB ids INITIAL_CHECKPOINTS = true) :
    checkpointInvariant (completeSeq ids INITIAL_CHECKPOINTS) :=
  checkpointInvariant_of_goodState
    (goodState_completeSeq ids INITIAL_CHECKPOINTS (by decide) goodState_initial hv)

/-- Witness for C1: the orderly sequence `greet`, `order_drink`. -/
theorem checkpoint_invariant_preserved_witness :
    validCallsB ["greet", "order_drink"] INITIAL_CHECKPOINTS = true ∧
      checkpointInvariant (completeSeq ["greet", "order_drink"] INITIAL_CHECKPOINTS) :=
  ⟨by decide, checkpoint_invariant_preserved ["greet", "order_drink"] (by decide)⟩

/-- C1 counterexample: the single out-of-order call `complete("ask_bill")`
from the initial list produces an array with two `current` checkpoints,
violating the claimed invariant. -/
theorem checkpoint_invariant_counterexample :
    ¬ checkpointInvariant (completeSeq ["ask_bill"] INITIAL_CHECKPOINTS) := by
  decide

/-- Orderly completion, generalised over an already-completed prefix `A`:
completing the ids of `c :: B` in order keeps exactly one `current` checkpoint
after every call but the last, and the last call completes everything. -/
theorem progression_aux : ∀ (B A : List Checkpoint) (c : Checkpoint),
    (∀ a ∈ A, a.status = .completed) → c.status = .current →
    (∀ b ∈ B, b.status = .pending) → (idList (A ++ c :: B)).Nodup →
    (∀ j, j + 1 ≤ B.length →
      countCurrent (completeSeq ((idList (c :: B)).take (j + 1)) (A ++ c :: B)) = 1) ∧
    (∀ x ∈ completeSeq (idList (c :: B)) (A ++ c :: B), x.status = .completed) := by
  intro B
  induction B with
  | nil =>
    intro A c hA hc _ hnd
    have hnotA : c.id ∉ idList A := id_notMem_of_nodup_middle hnd
    constructor
    · intro j hj
      simp at hj
    · intro x hx
      have hstep : completeSeq (idList [c]) (A ++ [c]) =
          A ++ [{ c with status := .completed }] := by
        show handleCheckpointComplete c.id (A ++ [c]) = _
        exact complete_current_last A c hnotA
      rw [hstep] at hx
      rcases List.mem_append.1 hx with hxA | hxc
      · exact hA x hxA
      · rw [List.mem_singleton.1 hxc]
  | cons b B2 ih =>
    intro A c hA hc hB hnd
    have hnotA : c.id ∉ idList A := id_notMem_of_nodup_middle hnd
    have hstep : handleCheckpointComplete c.id (A ++ c :: b :: B2) =
        (A ++ [{ c with status := .completed }]) ++
          { b with status := .current } :: B2 := by
      rw [complete_current_mid A c b B2 hnotA]
      simp
    have hA2 : ∀ a ∈ A ++ [{ c with status := .completed }],
        a.status = CheckpointStatus.completed := by
      intro a ha
      rcases List.mem_append.1 ha with haA | hac
      · exact hA a haA
      · rw [List.mem_singleton.1 hac]
    have hB2 : ∀ x ∈ B2, x.status = CheckpointStatus.pending := fun x hx =>
      hB x (List.mem_cons_of_mem b hx)
    have hnd2 : (idList ((A ++ [{ c with status := .completed }]) ++
        { b with status := .current } :: B2)).Nodup := by
      have : idList ((A ++ [{ c with status := .completed }]) ++
          { b with status := .current } :: B2) = idList (A ++ c :: b :: B2) := by
        simp [idList]
      rw [this]
      exact hnd
    have ihspec := ih (A ++ [{ c with status := .completed }])
      { b with status := .current } hA2 rfl hB2 hnd2
    constructor
    · intro j hj
      cases j with
      | zero =>
        have htake : (idList (c :: b :: B2)).take 1 = [c.id] := rfl
        rw [htake]
        have h1 : completeSeq [c.id] (A ++ c :: b :: B2) =
            (A ++ [{ c with status := .completed }]) ++
              { b with status := .current } :: B2 := hstep
        rw [h1]
        exact countCurrent_shape _ _ _ hA2 rfl hB2
      | succ j2 =>
        have htake : (idList (c :: b :: B2)).take (j2 + 1 + 1) =
            c.id :: (idList (b :: B2)).take (j2 + 1) := rfl
        rw [htake, completeSeq_cons, hstep]
        have := ihspec.1 j2 (by simpa using hj)
        simpa [idList] using this
    · have hfull : idList (c :: b :: B2) = c.id :: idList (b :: B2) := rfl
      rw [hfull, completeSeq_cons, hstep]
      intro x hx
      refine ihspec.2 x ?_
      simpa [idList] using hx

/-! ### C2: orderly completion of every checkpoint -/

/-- C2: for every initial list of `N` checkpoints with duplicate-free ids
(checkpoint 0 `current`, the rest `pending`), completing the ids in ordinal
order yields exactly one `current` checkpoint after each call except the
last; after the last call no checkpoint is `current` and all `N` are
`completed`. -/
theorem checkpoint_progression (init : List Checkpoint)
    (hshape : statusList init =
      .current :: List.replicate (init.length - 1) .pending)
    (hnd : (idList init).Nodup) :
    (∀ j, j + 1 < init.length →
      countCurrent (completeSeq ((idList init).take (j + 1)) init) = 1) ∧
    countCurrent (completeSeq (idList init) init) = 0 ∧
    ∀ x ∈ completeSeq (idList init) init, x.status = .completed := by
  cases init with
  | nil => simp [statusList] at hshape
  | cons c B =>
    simp only [statusList, List.map_cons, List.length_cons, Nat.add_sub_cancel,
      List.cons.injEq] at hshape
    have hc : c.status = .current := hshape.1
    have hB : ∀ b ∈ B, b.status = .pending := by
      intro b hb
      have : b.status ∈ List.replicate B.length CheckpointStatus.pending := by
        rw [← hshape.2]
        exact List.mem_map_of_mem _ hb
      exact List.eq_of_mem_replicate this
    have haux := progression_aux B [] c (by simp) hc hB (by simpa using hnd)
    have hcast : ([] : List Checkpoint) ++ c :: B = c :: B := rfl
    rw [hcast] at haux
    refine ⟨?_, ?_, haux.2⟩
    · intro j hj
      exact haux.1 j (by simpa using hj)
    · unfold countCurrent statusList
      rw [List.countP_eq_zero]
      intro s hs
      obtain ⟨x, hx, rfl⟩ := List.mem_map.1 hs
      rw [haux.2 x hx]
      decide

/-- Witness for C2 at the concrete initial list: one `current` after the
second of four calls, none after the fourth. -/
theorem checkpoint_progression_witness :
    countCurrent (completeSeq ((idList INITIAL_CHECKPOINTS).take 2)
      INITIAL_CHECKPOINTS) = 1 ∧
    countCurrent (completeSeq (idList INITIAL_CHECKPOINTS)
      INITIAL_CHECKPOINTS) = 0 :=
  ⟨(checkpoint_progression INITIAL_CHECKPOINTS (by decide) (by decide)).1 1
      (by decide),
   (checkpoint_progression INITIAL_CHECKPOINTS (by decide) (by decide)).2.1⟩

/-! ### C7: unknown ids are a no-op on the checkpoint array -/

/-- C7: for every checkpoint array and every id not present in it,
`complete(id)` leaves the array unchanged (and surfaces no error: the update
is total). -/
theorem complete_unknown_id_noop (id : String) (l : List Checkpoint)
    (h : id ∉ idList l) : handleCheckpointComplete id l = l :=
  handleCheckpointComplete_not_mem h

/-- Witness for C7 at the concrete initial list and the id `"nonexistent"`. -/
theorem complete_unknown_id_noop_witness :
    "nonexistent" ∉ idList INITIAL_CHECKPOINTS ∧
      handleCheckpointComplete "nonexistent" INITIAL_CHECKPOINTS =
        INITIAL_CHECKPOINTS :=
  ⟨by decide, complete_unknown_id_noop "nonexistent" INITIAL_CHECKPOINTS (by decide)⟩

/-! ### C10: celebration fires before the id is validated -/

/-- C10: invoking the App-level completion handler with an unknown id leaves
the checkpoint array unchanged, yet still sets the orb to `CELEBRATING` and
schedules the 2.5-second timer reverting it to `IDLE`. -/
theorem celebration_on_unknown_id (id : String) (s : AppState)
    (h : id ∉ idList s.checkpoints) :
    (appHandleCheckpointComplete id s).checkpoints = s.checkpoints ∧
      (appHandleCheckpointComplete id s).orbState = .celebrating ∧
      (appHandleCheckpointComplete id s).pendingOrbTimer = some (2500, .idle) :=
  ⟨by simp [appHandleCheckpointComplete, handleCheckpointComplete_not_mem h],
   rfl, rfl⟩

/-- Witness for C10 at a concrete app state. -/
theorem celebration_on_unknown_id_witness :
    "nonexistent" ∉ idList INITIAL_CHECKPOINTS ∧
      (appHandleCheckpointComplete "nonexistent"
          ⟨.idle, none, INITIAL_CHECKPOINTS⟩).checkpoints =
        INITIAL_CHECKPOINTS ∧
      (appHandleCheckpointComplete "nonexistent"
          ⟨.idle, none, INITIAL_CHECKPOINTS⟩).orbState = .celebrating :=
  ⟨by decide,
   (celebration_on_unknown_id "nonexistent"
      ⟨.idle, none, INITIAL_CHECKPOINTS⟩ (by decide)).1,
   (celebration_on_unknown_id "nonexistent"
      ⟨.idle, none, INITIAL_CHECKPOINTS⟩ (by decide)).2.1⟩

/-! ### C3: playback scheduling never overlaps and never starts in the past -/

/-- The first start time handed out by the scheduler is at least its cursor. -/
theorem scheduleAll_head_ge (arrivals : List (ℚ × ℚ)) (st : SchedulerState)
    (s : ℚ) (h : (scheduleAll arrivals st)[0]? = some s) :
    st.nextStartTime ≤ s := by
  cases arrivals with
  | nil => simp [scheduleAll] at h
  | cons a rest =>
    obtain ⟨t, d⟩ := a
    simp only [scheduleAll, scheduleBuffer, List.getElem?_cons_zero,
      Option.some.injEq] at h
    rw [← h]
    exact le_max_left _ _

/-- C3: every scheduled buffer starts at or after the output clock at its
arrival, and every next buffer starts at or after the previous buffer's end
(start plus duration) — for any arrival sequence and any initial cursor,
including the program's initial cursor `0`. -/
theorem playback_schedule_sound (arrivals : List (ℚ × ℚ)) (st : SchedulerState) :
    ∀ i t d s, arrivals[i]? = some (t, d) →
      (scheduleAll arrivals st)[i]? = some s →
      t ≤ s ∧
      ∀ sNext, (scheduleAll arrivals st)[i + 1]? = some sNext → s + d ≤ sNext := by
  induction arrivals generalizing st with
  | nil =>
    intro i t d s h
    simp at h
  | cons a rest ih =>
    obtain ⟨t0, d0⟩ := a
    intro i t d s harr hsched
    have hs2 : scheduleAll ((t0, d0) :: rest) st =
        max st.nextStartTime t0 ::
          scheduleAll rest { nextStartTime := max st.nextStartTime t0 + d0 } := rfl
    cases i with
    | zero =>
      simp only [List.getElem?_cons_zero, Option.some.injEq] at harr
      rw [hs2] at hsched
      simp only [List.getElem?_cons_zero, Option.some.injEq] at hsched
      obtain ⟨rfl, rfl⟩ := Prod.mk.injEq .. ▸ harr
      constructor
      · rw [← hsched]
        exact le_max_right _ _
      · intro sNext hnext
        rw [hs2, List.getElem?_cons_succ] at hnext
        have hge := scheduleAll_head_ge rest _ sNext hnext
        rw [← hsched]
        exact hge
    | succ i2 =>
      rw [List.getElem?_cons_succ] at harr
      rw [hs2, List.getElem?_cons_succ] at hsched
      have hrec := ih _ i2 t d s harr hsched
      refine ⟨hrec.1, ?_⟩
      intro sNext hnext
      rw [hs2, List.getElem?_cons_succ] at hnext
      exact hrec.2 sNext hnext

/-- Witness for C3 at the end-to-end example: a 0.5 s buffer at clock 0, then
a 0.3 s buffer at clock 0.1, starting from cursor 0. -/
theorem playback_schedule_sound_witness :
    (0 : ℚ) ≤ 0 ∧ (0 : ℚ) + 1 / 2 ≤ 1 / 2 := by
  have hmax1 : max (0 : ℚ) 0 = 0 := max_self 0
  have hmax2 : max ((0 : ℚ) + 1 / 2) (1 / 10) = 1 / 2 := by
    rw [max_eq_left (by norm_num)]
    norm_num
  have hs : scheduleAll [((0 : ℚ), (1 / 2 : ℚ)), ((1 / 10 : ℚ), (3 / 10 : ℚ))]
      { nextStartTime := 0 } = [0, 1 / 2] := by
    simp only [scheduleAll, scheduleBuffer]
    rw [hmax1, hmax2]
  have h := playback_schedule_sound
    [((0 : ℚ), (1 / 2 : ℚ)), ((1 / 10 : ℚ), (3 / 10 : ℚ))]
    { nextStartTime := 0 } 0 0 (1 / 2) 0 rfl (by rw [hs]; simp)
  exact ⟨h.1, h.2 (1 / 2) (by rw [hs]; simp)⟩

/-! ### C4: transcript aggregation -/

/-- C4: an incoming fragment with the same role as a non-finalized last turn
is appended to it (and the turn's finalized flag becomes the incoming one); a
role change or a finalized last turn starts a new turn; in particular the two
concrete streams of the claim behave as stated. -/
theorem transcript_aggregation :
    (∀ (newId : String) (role : Role) (text : String) (isFinal : Bool)
        (prev : List ChatMessage) (lastMsg : ChatMessage),
        prev.getLast? = some lastMsg →
        (lastMsg.role = role → isFinalTruthy lastMsg.isFinal = false →
          handleTranscriptUpdate newId role text isFinal prev =
            prev.dropLast ++
              [{ lastMsg with
                 text := lastMsg.text ++ text, isFinal := some isFinal }]) ∧
        ((lastMsg.role ≠ role ∨ isFinalTruthy lastMsg.isFinal = true) →
          handleTranscriptUpdate newId role text isFinal prev =
            prev ++
              [{ id := newId, role := role, text := text, isFinal := some isFinal }])) ∧
    processTranscript
        [⟨"1", .user, "Bon", false⟩, ⟨"2", .user, "jour", true⟩] =
      [{ id := "1", role := .user, text := "Bonjour", isFinal := some true }] ∧
    processTranscript
        [⟨"1", .user, "Hi", true⟩, ⟨"2", .assistant, "Hello", false⟩] =
      [{ id := "1", role := .user, text := "Hi", isFinal := some true },
       { id := "2", role := .assistant, text := "Hello", isFinal := some false }] := by
  refine ⟨?_, by decide, by decide⟩
  intro newId role text isFinal prev lastMsg hlast
  constructor
  · intro hrole hfin
    unfold handleTranscriptUpdate
    rw [hlast]
    simp [hrole, hfin]
  · intro hor
    unfold handleTranscriptUpdate
    rw [hlast]
    rcases hor with hne | hfin
    · have : (lastMsg.role == role) = false := by
        simpa using hne
      simp [this]
    · simp [hfin]

/-- Witness for C4's conditional rule: appending `"jour"` to the
non-finalized turn `"Bon"`. -/
theorem transcript_aggregation_witness :
    handleTranscriptUpdate "2" .user "jour" true
        [{ id := "1", role := .user, text := "Bon", isFinal := some false }] =
      [{ id := "1", role := .user, text := "Bonjour", isFinal := some true }] := by
  have h := (transcript_aggregation.1 "2" Role.user "jour" true
      [{ id := "1", role := .user, text := "Bon", isFinal := some false }]
      { id := "1", role := .user, text := "Bon", isFinal := some false }
      (by decide)).1 rfl rfl
  exact h.trans (by decide)

/-! ### C5: playback active/idle signalling -/

/-- C5 counterexample: scheduling a second buffer while the first is still
active emits a second "active" signal although the count stays non-zero, so
the emissions are not the transition-derived signals the claim states. -/
theorem playback_signal_counterexample :
    playbackEmissions 0 [.arrive, .arrive] ≠
      specSignals 0 [.arrive, .arrive] := by
  decide

/-- C5 (amended): on every valid trace (each `ended` fired by a scheduled
source), the idle signal is emitted exactly on non-empty-to-empty transitions
of the active set, and the active signal is emitted on every buffer arrival —
not only on empty-to-non-empty transitions. -/
theorem playback_signal_amended (trace : List PlaybackEvent) :
    ∀ n, validTrace n trace = true →
      playbackEmissions n trace = amendedSignals n trace := by
  induction trace with
  | nil => intro n _; rfl
  | cons e rest ih =>
    intro n hv
    cases e with
    | arrive =>
      rw [validTrace] at hv
      simp [playbackEmissions, playbackStep, amendedSignals, ih _ hv]
    | ended =>
      rw [validTrace, Bool.and_eq_true, decide_eq_true_eq] at hv
      have hn : 0 < n := hv.1
      simp [playbackEmissions, playbackStep, amendedSignals, ih _ hv.2, hn]

/-- Witness for C5's amended discipline on a concrete valid trace. -/
theorem playback_signal_amended_witness :
    validTrace 0 [.arrive, .arrive, .ended, .ended] = true ∧
      playbackEmissions 0 [.arrive, .arrive, .ended, .ended] =
        amendedSignals 0 [.arrive, .arrive, .ended, .ended] :=
  ⟨by decide,
   playback_signal_amended [.arrive, .arrive, .ended, .ended] 0 (by decide)⟩

/-! ### C6: tool invocations and responses -/

/-- C6 counterexample: an invocation whose name is not
`markCheckpointComplete` receives no response at all, not exactly one. -/
theorem tool_response_counterexample :
    ((handleToolCalls
        [{ id := "inv1", name := "otherTool", checkpointId := "x" }]).2).countP
      (fun r => r.id == "inv1") ≠ 1 := by
  decide

/-- C6 (amended): the responses sent are exactly one per invocation named
`markCheckpointComplete`, in order, each carrying that invocation's id and
name; invocations with any other name receive none. -/
theorem tool_responses_exactly_marked (fcs : List FunctionCall) :
    (handleToolCalls fcs).2 =
      (fcs.filter (fun fc => fc.name == "markCheckpointComplete")).map
        (fun fc =>
          { id := fc.id, name := fc.name, result := "Checkpoint marked." }) := by
  induction fcs with
  | nil => rfl
  | cons fc rest ih =>
    by_cases h : fc.name = "markCheckpointComplete"
    · simp [handleToolCalls, List.filter_cons, h, ih]
    · simp [handleToolCalls, List.filter_cons, h, ih]

/-! ### C8: disconnect -/

/-- C8 counterexample: with every resource live, a failure while closing the
input audio context makes `disconnect` abort with the output audio context
still open — releasing one resource failing does prevent releasing the
rest. -/
theorem disconnect_failure_counterexample :
    (disconnect
        { processorDisconnectFails := false, streamStopFails := false,
          inputCloseFails := true, outputCloseFails := false }
        { processorPresent := true, processorReleased := false,
          streamPresent := true, streamStopped := false,
          inputPresent := true, inputClosed := false,
          outputPresent := true, outputClosed := false }).1.outputClosed =
        false ∧
      (disconnect
        { processorDisconnectFails := false, streamStopFails := false,
          inputCloseFails := true, outputCloseFails := false }
        { processorPresent := true, processorReleased := false,
          streamPresent := true, streamStopped := false,
          inputPresent := true, inputClosed := false,
          outputPresent := true, outputClosed := false }).2 = true := by
  decide

/-- C8 (amended): `disconnect` runs unconditionally on any session state and,
when the individual release operations succeed, it reports no error and a
second call is a no-op (idempotence, already-disconnected included); but the
releases run in sequence without isolation, so a failure while releasing any
one resource — the capture processor, the mic stream tracks, the input audio
context or the output audio context — escapes the method and leaves that
resource and every resource after it in the release order exactly as it
was. -/
theorem disconnect_release_behavior (s : SessionResources) :
    (∀ env : DisconnectEnv, env.processorDisconnectFails = false →
      env.streamStopFails = false → env.inputCloseFails = false →
      env.outputCloseFails = false →
      (disconnect env s).2 = false ∧
      disconnect env (disconnect env s).1 = ((disconnect env s).1, false)) ∧
    (∀ env : DisconnectEnv, s.processorPresent = true →
      env.processorDisconnectFails = true →
      disconnect env s = (s, true)) ∧
    (∀ env : DisconnectEnv, env.processorDisconnectFails = false →
      s.streamPresent = true → env.streamStopFails = true →
      (disconnect env s).2 = true ∧
      (disconnect env s).1.streamStopped = s.streamStopped ∧
      (disconnect env s).1.inputClosed = s.inputClosed ∧
      (disconnect env s).1.outputClosed = s.outputClosed) ∧
    (∀ env : DisconnectEnv, env.processorDisconnectFails = false →
      env.streamStopFails = false → s.inputPresent = true →
      env.inputCloseFails = true →
      (disconnect env s).2 = true ∧
      (disconnect env s).1.inputClosed = s.inputClosed ∧
      (disconnect env s).1.outputClosed = s.outputClosed) ∧
    (∀ env : DisconnectEnv, env.processorDisconnectFails = false →
      env.streamStopFails = false → env.inputCloseFails = false →
      s.outputPresent = true → env.outputCloseFails = true →
      (disconnect env s).2 = true ∧
      (disconnect env s).1.outputClosed = s.outputClosed) := by
  obtain ⟨p, pr, sp, ss, ip, ic, op, oc⟩ := s
  refine ⟨?_, ?_, ?_, ?_, ?_⟩
  · intro env e1 e2 e3 e4
    obtain ⟨a, b, c, d⟩ := env
    simp only at e1 e2 e3 e4
    subst e1; subst e2; subst e3; subst e4
    cases p <;> cases sp <;> cases ip <;> cases op <;> exact ⟨rfl, rfl⟩
  · intro env hp e1
    obtain ⟨a, b, c, d⟩ := env
    simp only at hp e1
    subst hp; subst e1
    rfl
  · intro env e1 hsp e2
    obtain ⟨a, b, c, d⟩ := env
    simp only at e1 hsp e2
    subst e1; subst hsp; subst e2
    cases p <;> exact ⟨rfl, rfl, rfl, rfl⟩
  · intro env e1 e2 hip e3
    obtain ⟨a, b, c, d⟩ := env
    simp only at e1 e2 hip e3
    subst e1; subst e2; subst hip; subst e3
    cases p <;> cases sp <;> exact ⟨rfl, rfl, rfl⟩
  · intro env e1 e2 e3 hop e4
    obtain ⟨a, b, c, d⟩ := env
    simp only at e1 e2 e3 hop e4
    subst e1; subst e2; subst e3; subst hop; subst e4
    cases p <;> cases sp <;> cases ip <;> exact ⟨rfl, rfl⟩

/-- Witness for C8's amended behavior: a fully live session under a
no-failure environment releases everything without error, and the same
session aborts as-is when the very first release (the processor) fails. -/
theorem disconnect_release_behavior_witness :
    (disconnect
        { processorDisconnectFails := false, streamStopFails := false,
          inputCloseFails := false, outputCloseFails := false }
        { processorPresent := true, processorReleased := false,
          streamPresent := true, streamStopped := false,
          inputPresent := true, inputClosed := false,
          outputPresent := true, outputClosed := false }).2 = false ∧
      disconnect
        { processorDisconnectFails := true, streamStopFails := false,
          inputCloseFails := false, outputCloseFails := false }
        { processorPresent := true, processorReleased := false,
          streamPresent := true, streamStopped := false,
          inputPresent := true, inputClosed := false,
          outputPresent := true, outputClosed := false } =
        ({ processorPresent := true, processorReleased := false,
           streamPresent := true, streamStopped := false,
           inputPresent := true, inputClosed := false,
           outputPresent := true, outputClosed := false }, true) :=
  ⟨((disconnect_release_behavior
      { processorPresent := true, processorReleased := false,
        streamPresent := true, streamStopped := false,
        inputPresent := true, inputClosed := false,
        outputPresent := true, outputClosed := false }).1
      { processorDisconnectFails := false, streamStopFails := false,
        inputCloseFails := false, outputCloseFails := false }
      rfl rfl rfl rfl).1,
   (disconnect_release_behavior
      { processorPresent := true, processorReleased := false,
        streamPresent := true, streamStopped := false,
        inputPresent := true, inputClosed := false,
        outputPresent := true, outputClosed := false }).2.1
      { processorDisconnectFails := true, streamStopFails := false,
        inputCloseFails := false, outputCloseFails := false }
      rfl rfl⟩

/-! ### C9: the volume meter -/

/-- C9: for every captured frame of samples in `[-1, 1]`, the emitted volume
is `5` times the frame's root-mean-square; it is non-negative, and a frame of
RMS `0.3` emits `1.5`. -/
theorem volume_meter_correct (frame : List ℚ) (v r : ℝ)
    (_hrange : ∀ x ∈ frame, -1 ≤ x ∧ x ≤ 1)
    (hv : EmitsVolume frame v) (hr : IsRms frame r) :
    v = 5 * r ∧ 0 ≤ v ∧ (r = 3 / 10 → v = 3 / 2) := by
  obtain ⟨hr0, hr2⟩ := hr
  have hmean : ((sumSquares frame : ℚ) : ℝ) / ((frame.length : ℕ) : ℝ) =
      ((sumSquares frame / (frame.length : ℚ) : ℚ) : ℝ) := by
    push_cast
    ring
  have hsqrt : Real.sqrt (((sumSquares frame : ℚ) : ℝ) /
      ((frame.length : ℕ) : ℝ)) = r := by
    rw [hmean, ← hr2, Real.sqrt_sq hr0]
  have hv5 : v = 5 * r := by
    rw [hv, hsqrt]
    ring
  refine ⟨hv5, ?_, ?_⟩
  · rw [hv5]
    have := hr0
    linarith
  · intro hr3
    rw [hv5, hr3]
    norm_num

/-- Witness for C9: the constant frame `[0.3]` has RMS `0.3` and the handler
emits `1.5` for it. -/
theorem volume_meter_correct_witness :
    (3 / 2 : ℝ) = 5 * (3 / 10) ∧ (0 : ℝ) ≤ 3 / 2 := by
  have hsum : sumSquares [(3 / 10 : ℚ)] = 9 / 100 := by
    simp only [sumSquares, List.foldl_cons, List.foldl_nil]
    norm_num
  have hv : EmitsVolume [(3 / 10 : ℚ)] (3 / 2) := by
    unfold EmitsVolume
    rw [hsum]
    have hcast : ((9 / 100 : ℚ) : ℝ) /
        ((List.length [(3 / 10 : ℚ)] : ℕ) : ℝ) = (3 / 10 : ℝ) ^ 2 := by
      push_cast
      norm_num
    rw [hcast, Real.sqrt_sq (by norm_num)]
    norm_num
  have hr : IsRms [(3 / 10 : ℚ)] (3 / 10) := by
    constructor
    · norm_num
    · rw [hsum]
      push_cast
      norm_num
  have h := volume_meter_correct [(3 / 10 : ℚ)] (3 / 2) (3 / 10)
    (by intro x hx; rw [List.mem_singleton.1 hx]; constructor <;> norm_num)
    hv hr
  exact ⟨h.1, h.2.1⟩

end Orbion
